import Mathlib

/-!
Verification of the `tengok` directory-statistics tool (src/main.rs).

The source is shallowly embedded: file contents are lists of bytes (`Nat`),
paths appear as strings (or just their extension where only the extension
matters), the record channel is a list of `FileRecord`s folded by the
aggregator, and the `DirTotals` hash map is an association list with unique
keys.  Effects (metadata lookup, file reads) are passed in explicitly as
`Option` values.
-/

namespace Tengok

/-- Embeds `Config` (src/main.rs lines 42-48): resolved CLI options. -/
structure Config where
  root : String
  plain : Bool
  skip_lines : Bool
  force_lines : Bool
  max_line_bytes : Nat
deriving Repr, DecidableEq

/-- Embeds `DEFAULT_MAX_LINE_BYTES` (line 35): `5 * 1024 * 1024`. -/
def DEFAULT_MAX_LINE_BYTES : Nat := 5 * 1024 * 1024

/-- Embeds `BINARY_EXTS` (lines 36-40), in source order. -/
def BINARY_EXTS : List String :=
  ["png", "jpg", "jpeg", "gif", "bmp", "webp", "ico", "svg", "tif", "tiff",
   "pdf", "zip", "gz", "bz2", "xz", "7z", "tar", "rar", "mp4", "mov", "avi",
   "mkv", "mp3", "wav", "flac", "ogg", "ttf", "otf", "woff", "woff2", "exe",
   "dll", "so", "dylib", "class", "jar", "bin"]

/-- Embeds Rust `char::to_ascii_lowercase`: shift only `A`-`Z` down by 32. -/
def asciiLowerChar (c : Char) : Char :=
  if 65 ≤ c.toNat ∧ c.toNat ≤ 90 then Char.ofNat (c.toNat + 32) else c

/-- Embeds Rust `str::to_ascii_lowercase` applied in `should_count_lines`:
lowercase every character of the string. -/
def asciiLower (s : String) : String :=
  String.mk (s.data.map asciiLowerChar)

/-- Embeds `should_count_lines` (lines 276-293).  The `ext` argument is the
value of `path.extension().and_then(|s| s.to_str())` for the path in
question; the rest of the path is irrelevant to the function. -/
def should_count_lines (ext : Option String) (size : Nat) (config : Config) : Bool :=
  if config.skip_lines then false
  else if config.force_lines then true
  else if config.max_line_bytes > 0 ∧ size > config.max_line_bytes then false
  else
    match ext with
    | some e => if BINARY_EXTS.contains (asciiLower e) then false else true
    | none => true

/-- The extension test of rule 4, as a standalone predicate: the extension,
lowercased ASCII-wise, is in the binary denylist (`none` never matches). -/
def extDenied (ext : Option String) : Bool :=
  match ext with
  | some e => BINARY_EXTS.contains (asciiLower e)
  | none => false

/-! ## Line counter (`count_lines_fast`, lines 259-274)

A file's content is a list of bytes.  `BufRead::read_until(b'\n', buf)`
reads up to and including the first newline byte (10), or to end of file
when none remains, and returns the number of bytes read; the loop counts
one line per non-empty read. -/

/-- One `read_until(b'\n', ..)` call on the remaining content: returns the
number of bytes consumed and the remaining content. -/
def readUntilNl : List Nat → Nat × List Nat
  | [] => (0, [])
  | b :: rest =>
    if b = 10 then (1, rest)
    else
      let r := readUntilNl rest
      (r.1 + 1, r.2)

/-- Embeds the counting loop of `count_lines_fast` (lines 264-271): repeat
`read_until`, stop on a zero-byte read, count one line per non-empty read. -/
def countLoop (l : List Nat) : Nat :=
  match h : readUntilNl l with
  | (0, _) => 0
  | (n + 1, rest) => 1 + countLoop rest
termination_by l.length
decreasing_by
  have hl : ∀ m : List Nat, (readUntilNl m).1 + (readUntilNl m).2.length = m.length := by
    intro m
    induction m with
    | nil => simp [readUntilNl]
    | cons b rest2 ih =>
      by_cases hb : b = 10
      · simp only [readUntilNl, if_pos hb, List.length_cons]
        omega
      · simp only [readUntilNl, if_neg hb, List.length_cons]
        omega
  have hl2 := hl l
  rw [h] at hl2
  simp at hl2
  omega

/-- Embeds `count_lines_fast` (lines 259-274): `File::open` may fail (modelled
by the `Option` input); on success the loop counts lines of the content. -/
def count_lines_fast (file : Option (List Nat)) : Option Nat :=
  file.map countLoop

/-! ## Argument parsing (`Config::from_args`, lines 50-99) -/

/-- Embeds Rust `str::starts_with(pat)`: `strStartsWith s p` holds when `p`
is a prefix of `s`. -/
def strStartsWith (s p : String) : Bool :=
  p.toList.isPrefixOf s.toList

/-- Embeds Rust `str::parse::<u64>()`: optional leading `+`, then one or more
ASCII digits, rejecting values that overflow 64 bits. -/
def parseU64 (s : String) : Option Nat :=
  let cs := match s.toList with
    | '+' :: rest => rest
    | cs => cs
  if cs = [] then none
  else if cs.all (fun c => c.isDigit) then
    let n := cs.foldl (fun acc c => acc * 10 + (c.toNat - 48)) 0
    if n < 2 ^ 64 then some n else none
  else none

/-- Embeds the `while let Some(arg) = args.next()` loop of `Config::from_args`
(lines 59-88), carrying the mutable locals as parameters.  The
`--max-line-bytes` arm consumes the following argument as its value; the
`--max-line-bytes=` arm splits at the first `=` (byte index 17 onward). -/
def fromArgsGo (root : Option String) (plain skip force : Bool) (mlb : Nat) :
    List String → Except String Config
  | [] => Except.ok ⟨root.getD ".", plain, skip, force, mlb⟩
  | a :: rest =>
    if a = "--plain" ∨ a = "--no-colors" then fromArgsGo root true skip force mlb rest
    else if a = "--no-lines" then fromArgsGo root plain true force mlb rest
    else if a = "--force-lines" then fromArgsGo root plain false true mlb rest
    else if a = "--max-line-bytes" then
      match rest with
      | [] => Except.error "--max-line-bytes requires a numeric value"
      | v :: rest2 =>
        match parseU64 v with
        | some n => fromArgsGo root plain skip force n rest2
        | none => Except.error "Unable to parse --max-line-bytes"
    else if strStartsWith a "--max-line-bytes=" then
      match parseU64 (a.drop 17) with
      | some n => fromArgsGo root plain skip force n rest
      | none => Except.error "Unable to parse --max-line-bytes"
    else if strStartsWith a "-" then
      Except.error ("Unknown flag: " ++ a)
    else fromArgsGo (some a) plain skip force mlb rest

/-- Embeds `Config::from_args` (lines 50-99): fold the argument list through
the loop starting from the defaults of lines 53-57. -/
def from_args (args : List String) : Except String Config :=
  fromArgsGo none false false false DEFAULT_MAX_LINE_BYTES args

/-- Embeds `usage()` (lines 101-110). -/
def usage : String :=
  "Usage: tengok [OPTIONS] [PATH]\n\nOptions:\n  --plain, --no-colors        Disable ANSI colors in the report\n  --no-lines                  Skip line counting entirely\n  --force-lines               Always count lines (even for large/binary files)\n  --max-line-bytes <N>        Only count lines for files up to N bytes (default ~5MB)\n"

/-- Outcome of the start of `main` (lines 120-135), before `scan_dir` runs:
either exit code 1 with lines written to standard error, or proceed to the
traversal with the parsed `Config`. -/
inductive MainStart where
  | exit1 (stderrLines : List String)
  | run (cfg : Config)
deriving Repr, DecidableEq

/-- Embeds `main` up to the `scan_dir` call (lines 120-135): a parse error
prints the error and the usage text and exits 1; a root that does not exist
(existence supplied as an oracle `ex`) prints a message and exits 1. -/
def mainStart (args : List String) (ex : String → Bool) : MainStart :=
  match from_args args with
  | Except.error e => MainStart.exit1 [e, usage]
  | Except.ok cfg =>
    if ex cfg.root then MainStart.run cfg
    else MainStart.exit1 ["Path does not exist: " ++ cfg.root]

/-! ## Records, workers and the aggregator (`scan_dir`, lines 141-257) -/

/-- Embeds `FileRecord` (lines 112-118). -/
structure FileRecord where
  path : String
  parent : String
  size : Nat
  lines : Nat
deriving Repr, DecidableEq

/-- Embeds `FileStat` (lines 19-24). -/
structure FileStat where
  path : String
  size : Nat
  lines : Nat
deriving Repr, DecidableEq

/-- Embeds `Summary` (lines 26-33); `Summary::default()` zeroes every field. -/
structure Summary where
  total_files : Nat
  total_size : Nat
  total_lines : Nat
  max_lines_file : Option FileStat
  largest_dir : Option (String × Nat)
deriving Repr, DecidableEq

/-- Embeds `Summary::default()` (line 201). -/
def initSummary : Summary := ⟨0, 0, 0, none, none⟩

/-- Embeds the worker body for one directory entry (lines 165-189), with the
filesystem effects passed in explicitly: `meta` is the result of
`path.metadata()` (`none` on failure, otherwise the file size) and `file`
the result of opening and reading the file (`none` on I/O failure).  On
metadata failure the worker returns without sending a record; a read
failure during line counting is `unwrap_or(0)`. -/
def workerProcess (ext : Option String) (path parent : String)
    (meta : Option Nat) (file : Option (List Nat)) (cfg : Config) :
    Option FileRecord :=
  match meta with
  | none => none
  | some size =>
    let lines :=
      if should_count_lines ext size cfg then (count_lines_fast file).getD 0
      else 0
    some ⟨path, parent, size, lines⟩

/-- The `DirTotals` map (`dir_sizes`, line 202) as an association list with
unique keys. -/
def DirTotals := List (String × Nat)

/-- Embeds `*dir_sizes.entry(record.parent).or_insert(0) += record.size`
(line 227). -/
def bumpDir (m : List (String × Nat)) (d : String) (sz : Nat) :
    List (String × Nat) :=
  match m with
  | [] => [(d, sz)]
  | (k, v) :: rest =>
    if k = d then (k, v + sz) :: rest else (k, v) :: bumpDir rest d sz

/-- Embeds one iteration of the aggregator's drain loop (lines 208-227),
progress drawing aside (it does not touch the accumulated state): bump the
three totals, replace `max_lines_file` on strict improvement over the
current maximum (`unwrap_or(0)` when unset), and credit the record's size
to its parent directory. -/
def foldStep (st : Summary × List (String × Nat)) (r : FileRecord) :
    Summary × List (String × Nat) :=
  let s := st.1
  let cur := (s.max_lines_file.map (fun f => f.lines)).getD 0
  let mlf :=
    if r.lines > cur then some (FileStat.mk r.path r.size r.lines)
    else s.max_lines_file
  ({ s with
      total_files := s.total_files + 1
      total_size := s.total_size + r.size
      total_lines := s.total_lines + r.lines
      max_lines_file := mlf },
   bumpDir st.2 r.parent r.size)

/-- The aggregator's drain of the whole record stream, starting from
`Summary::default()` and an empty `dir_sizes` (lines 201-245). -/
def drain (records : List FileRecord) : Summary × List (String × Nat) :=
  records.foldl foldStep (initSummary, [])

/-- Embeds `dir_sizes.into_iter().max_by_key(|(_, s)| *s)` (line 252):
left fold keeping the later element on ties, as Rust's `max_by_key` does.
(Hash-map iteration order is arbitrary; the claims proved below do not
depend on it.) -/
def maxBySizeGo (best : String × Nat) : List (String × Nat) → String × Nat
  | [] => best
  | x :: rest => maxBySizeGo (if x.2 ≥ best.2 then x else best) rest

/-- `max_by_key` over the whole map: `none` on an empty map. -/
def maxBySize : List (String × Nat) → Option (String × Nat)
  | [] => none
  | x :: rest => some (maxBySizeGo x rest)

/-- Embeds `scan_dir`'s aggregation result (lines 201-256): drain the record
stream, then set `largest_dir` from the post-pass over `dir_sizes`
(lines 252-254). -/
def scan_dir (records : List FileRecord) : Summary :=
  let st := drain records
  match maxBySize st.2 with
  | some ds => { st.1 with largest_dir := some ds }
  | none => st.1

/-- Embeds the `largest_dir` rendering of `print_report` (lines 303-309 and
320-324): the `None` arm yields the pair `("-", "-")` and the value cell
prints `"-"`; the `Some` arm goes through `display_relative_path` and
`format_size`, passed here as oracles `rel` and `fmtSize`. -/
def largestDirVal (fmtSize : Nat → String) (rel : String → String)
    (ld : Option (String × Nat)) : String :=
  let pr :=
    match ld with
    | some (p, s) => (rel p, fmtSize s)
    | none => ("-", "-")
  if pr.1 = "-" then "-" else pr.1 ++ " (" ++ pr.2 ++ ")"

/-- The aggregator's read of the current maximum line count (lines 213-217):
`max_lines_file.as_ref().map(|f| f.lines).unwrap_or(0)`. -/
def maxLinesVal (s : Summary) : Nat :=
  (s.max_lines_file.map (fun f => f.lines)).getD 0

/-- Sum of the values of a `DirTotals` association list. -/
def sumValues (m : List (String × Nat)) : Nat :=
  (m.map (fun p => p.2)).sum

/-! ## Line-counter lemmas -/

theorem countLoop_nil : countLoop [] = 0 := by
  rw [countLoop.eq_def]
  simp [readUntilNl]

theorem readUntilNl_fst_ne (l : List Nat) (h : l ≠ []) : (readUntilNl l).1 ≠ 0 := by
  match l with
  | [] => exact absurd rfl h
  | b :: rest =>
    by_cases hb : b = 10
    · simp [readUntilNl, hb]
    · simp [readUntilNl, hb]

theorem countLoop_ne_nil (l : List Nat) (h : l ≠ []) :
    countLoop l = 1 + countLoop (readUntilNl l).2 := by
  rw [countLoop.eq_def]
  have hf := readUntilNl_fst_ne l h
  rcases hr : readUntilNl l with ⟨n, rest⟩
  rw [hr] at hf
  match n, hf with
  | Nat.succ m, _ => simp

theorem countLoop_cons_nl (t : List Nat) : countLoop (10 :: t) = 1 + countLoop t := by
  have h := countLoop_ne_nil (10 :: t) (by simp)
  simpa [readUntilNl] using h

theorem countLoop_cons_other (b : Nat) (t : List Nat) (hb : b ≠ 10) (ht : t ≠ []) :
    countLoop (b :: t) = countLoop t := by
  have h1 := countLoop_ne_nil (b :: t) (by simp)
  have h2 := countLoop_ne_nil t ht
  rw [h1, h2]
  simp [readUntilNl, hb]

theorem countLoop_single (b : Nat) (hb : b ≠ 10) : countLoop [b] = 1 := by
  have h := countLoop_ne_nil [b] (by simp)
  simpa [readUntilNl, hb, countLoop_nil] using h

/-- Characterization of the counting loop: the number of newline bytes, plus
one for a non-empty unterminated tail. -/
theorem countLoop_char (l : List Nat) :
    countLoop l =
      l.count 10 + (if l.getLast? = some 10 ∨ l = [] then 0 else 1) := by
  induction l with
  | nil => simp [countLoop_nil]
  | cons b t ih =>
    by_cases hb : b = 10
    · subst hb
      rw [countLoop_cons_nl, ih]
      match t with
      | [] => simp
      | c :: u => simp [List.count_cons, List.getLast?_cons_cons]; omega
    · match t with
      | [] =>
        rw [countLoop_single b hb]
        simp [List.count_cons, hb]
      | c :: u =>
        rw [countLoop_cons_other b (c :: u) hb (by simp), ih]
        simp [List.count_cons, hb, List.getLast?_cons_cons]

/-! ## Claims -/

/-- C1: `should_count_lines` evaluates its rules in order with first match
winning: `skip_lines` set ⇒ `false`; else `force_lines` set ⇒ `true`; else
`max_line_bytes > 0` and `size > max_line_bytes` ⇒ `false` (a file exactly
at the ceiling is still counted, one byte over is not); else a
case-insensitive extension hit in the binary denylist ⇒ `false`; otherwise
`true`.  Purity and determinism hold by construction, the embedding being a
Lean function of exactly these inputs. -/
theorem should_count_lines_rule_order (ext : Option String) (size : Nat) (cfg : Config) :
    (cfg.skip_lines = true → should_count_lines ext size cfg = false) ∧
    (cfg.skip_lines = false → cfg.force_lines = true →
      should_count_lines ext size cfg = true) ∧
    (cfg.skip_lines = false → cfg.force_lines = false →
      0 < cfg.max_line_bytes → cfg.max_line_bytes < size →
      should_count_lines ext size cfg = false) ∧
    (cfg.skip_lines = false → cfg.force_lines = false →
      (cfg.max_line_bytes = 0 ∨ size ≤ cfg.max_line_bytes) →
      extDenied ext = true → should_count_lines ext size cfg = false) ∧
    (cfg.skip_lines = false → cfg.force_lines = false →
      (cfg.max_line_bytes = 0 ∨ size ≤ cfg.max_line_bytes) →
      extDenied ext = false → should_count_lines ext size cfg = true) ∧
    (cfg.skip_lines = false → cfg.force_lines = false → extDenied ext = false →
      0 < cfg.max_line_bytes →
      should_count_lines ext cfg.max_line_bytes cfg = true ∧
      should_count_lines ext (cfg.max_line_bytes + 1) cfg = false) := by
  refine ⟨?_, ?_, ?_, ?_, ?_, ?_⟩
  · intro h1
    simp [should_count_lines, h1]
  · intro h1 h2
    simp [should_count_lines, h1, h2]
  · intro h1 h2 h3 h4
    rw [should_count_lines.eq_def, if_neg (by simp [h1]), if_neg (by simp [h2]),
      if_pos ⟨h3, h4⟩]
  · intro h1 h2 h3 h4
    rw [should_count_lines.eq_def, if_neg (by simp [h1]), if_neg (by simp [h2]),
      if_neg (by omega)]
    match ext with
    | none => simp [extDenied] at h4
    | some e =>
      simp only [extDenied] at h4
      simp only [h4]
      simp
  · intro h1 h2 h3 h4
    rw [should_count_lines.eq_def, if_neg (by simp [h1]), if_neg (by simp [h2]),
      if_neg (by omega)]
    match ext with
    | none => simp
    | some e =>
      simp only [extDenied] at h4
      simp only [h4]
      simp
  · intro h1 h2 h3 h4
    constructor
    · rw [should_count_lines.eq_def, if_neg (by simp [h1]), if_neg (by simp [h2]),
        if_neg (by omega)]
      match ext with
      | none => simp
      | some e =>
        simp only [extDenied] at h3
        simp only [h3]
        simp
    · rw [should_count_lines.eq_def, if_neg (by simp [h1]), if_neg (by simp [h2]),
        if_pos ⟨h4, by omega⟩]

/-- Witness for C1: concrete evaluations at each rule. -/
theorem should_count_lines_rule_order_witness :
    should_count_lines (some "rs") 7 ⟨".", false, true, false, 100⟩ = false ∧
    should_count_lines (some "PNG") 7 ⟨".", false, false, true, 100⟩ = true ∧
    should_count_lines (some "rs") 101 ⟨".", false, false, false, 100⟩ = false ∧
    should_count_lines (some "PNG") 7 ⟨".", false, false, false, 100⟩ = false ∧
    should_count_lines (some "rs") 100 ⟨".", false, false, false, 100⟩ = true ∧
    should_count_lines (some "rs") 101 ⟨".", false, false, false, 100⟩ = false := by
  refine ⟨?_, ?_, ?_, ?_, ?_, ?_⟩
  · exact (should_count_lines_rule_order (some "rs") 7 _).1 rfl
  · exact (should_count_lines_rule_order (some "PNG") 7 _).2.1 rfl rfl
  · exact (should_count_lines_rule_order (some "rs") 101 _).2.2.1 rfl rfl
      (by decide) (by decide)
  · exact (should_count_lines_rule_order (some "PNG") 7 _).2.2.2.1 rfl rfl
      (Or.inr (by decide)) (by decide)
  · exact ((should_count_lines_rule_order (some "rs") 7 _).2.2.2.2.2 rfl rfl
      (by decide) (by decide)).1
  · exact ((should_count_lines_rule_order (some "rs") 7 _).2.2.2.2.2 rfl rfl
      (by decide) (by decide)).2

/-- C2: on a readable file whose content has `k` newline bytes,
`count_lines_fast` returns `Ok k` when the content ends exactly at a
terminator (including `Ok 0` for empty content), and `Ok (k + 1)` when
unterminated content trails the last terminator. -/
theorem count_lines_fast_char (content : List Nat) :
    (content = [] → count_lines_fast (some content) = some 0) ∧
    (content.getLast? = some 10 →
      count_lines_fast (some content) = some (content.count 10)) ∧
    (content ≠ [] → content.getLast? ≠ some 10 →
      count_lines_fast (some content) = some (content.count 10 + 1)) := by
  refine ⟨?_, ?_, ?_⟩
  · intro h
    subst h
    simp [count_lines_fast, countLoop_nil]
  · intro h
    simp [count_lines_fast, countLoop_char, h]
  · intro h1 h2
    simp [count_lines_fast, countLoop_char, h1, h2]

/-- Witness for C2: content `"a\nb"` (one terminator, trailing tail) counts
2 lines; content `"a\n"` counts 1; empty content counts 0. -/
theorem count_lines_fast_char_witness :
    count_lines_fast (some [97, 10, 98]) = some 2 ∧
    count_lines_fast (some [97, 10]) = some 1 ∧
    count_lines_fast (some []) = some 0 := by
  refine ⟨?_, ?_, ?_⟩
  · have h := (count_lines_fast_char [97, 10, 98]).2.2 (by decide) (by decide)
    simpa using h
  · have h := (count_lines_fast_char [97, 10]).2.1 (by decide)
    simpa using h
  · exact (count_lines_fast_char []).1 rfl

/-! ## Aggregator lemmas -/

theorem foldStep_maxLinesVal (st : Summary × List (String × Nat)) (r : FileRecord) :
    maxLinesVal (foldStep st r).1 = Nat.max (maxLinesVal st.1) r.lines := by
  simp only [foldStep, maxLinesVal]
  by_cases h : r.lines > (st.1.max_lines_file.map (fun f => f.lines)).getD 0
  · simp [h]
    omega
  · simp [h]
    omega

theorem foldStep_max_unchanged (st : Summary × List (String × Nat)) (r : FileRecord)
    (h : r.lines ≤ maxLinesVal st.1) :
    (foldStep st r).1.max_lines_file = st.1.max_lines_file := by
  simp only [foldStep, maxLinesVal] at h ⊢
  rw [if_neg (by omega)]

theorem foldStep_max_replaced (st : Summary × List (String × Nat)) (r : FileRecord)
    (h : maxLinesVal st.1 < r.lines) :
    (foldStep st r).1.max_lines_file = some ⟨r.path, r.size, r.lines⟩ := by
  simp only [foldStep, maxLinesVal] at h ⊢
  rw [if_pos (by omega)]

theorem foldStep_totals (st : Summary × List (String × Nat)) (r : FileRecord) :
    (foldStep st r).1.total_files = st.1.total_files + 1 ∧
    (foldStep st r).1.total_size = st.1.total_size + r.size ∧
    (foldStep st r).1.total_lines = st.1.total_lines + r.lines := by
  simp [foldStep]

theorem sumValues_bumpDir (m : List (String × Nat)) (d : String) (sz : Nat) :
    sumValues (bumpDir m d sz) = sumValues m + sz := by
  induction m with
  | nil => simp [bumpDir, sumValues]
  | cons p rest ih =>
    rcases p with ⟨k, v⟩
    by_cases hk : k = d
    · simp [bumpDir, hk, sumValues]
      omega
    · simp only [bumpDir, if_neg hk]
      simp only [sumValues, List.map_cons, List.sum_cons] at ih ⊢
      omega

theorem foldl_maxLinesVal (records : List FileRecord) (st : Summary × List (String × Nat)) :
    maxLinesVal (records.foldl foldStep st).1 =
      records.foldl (fun acc r => Nat.max acc r.lines) (maxLinesVal st.1) := by
  induction records generalizing st with
  | nil => simp
  | cons r rest ih =>
    simp only [List.foldl_cons]
    rw [ih, foldStep_maxLinesVal]

theorem foldl_totals (records : List FileRecord) (st : Summary × List (String × Nat)) :
    (records.foldl foldStep st).1.total_files = st.1.total_files + records.length ∧
    (records.foldl foldStep st).1.total_size =
      st.1.total_size + (records.map (fun r => r.size)).sum ∧
    (records.foldl foldStep st).1.total_lines =
      st.1.total_lines + (records.map (fun r => r.lines)).sum ∧
    sumValues (records.foldl foldStep st).2 =
      sumValues st.2 + (records.map (fun r => r.size)).sum := by
  induction records generalizing st with
  | nil => simp
  | cons r rest ih =>
    simp only [List.foldl_cons, List.map_cons, List.sum_cons, List.length_cons]
    have h := ih (foldStep st r)
    have hstep := foldStep_totals st r
    have hdir : sumValues (foldStep st r).2 = sumValues st.2 + r.size := by
      simp only [foldStep]
      exact sumValues_bumpDir st.2 r.parent r.size
    refine ⟨?_, ?_, ?_, ?_⟩
    · rw [h.1, hstep.1]
      omega
    · rw [h.2.1, hstep.2.1]
      omega
    · rw [h.2.2.1, hstep.2.2]
      omega
    · rw [h.2.2.2, hdir]
      omega

theorem foldl_max_none (records : List FileRecord) (st : Summary × List (String × Nat))
    (hall : ∀ r ∈ records, r.lines = 0) (h0 : st.1.max_lines_file = none) :
    (records.foldl foldStep st).1.max_lines_file = none := by
  induction records generalizing st with
  | nil => simpa using h0
  | cons r rest ih =>
    simp only [List.foldl_cons]
    refine ih (foldStep st r) (fun r2 hr2 => hall r2 (by simp [hr2])) ?_
    rw [foldStep_max_unchanged st r ?_, h0]
    rw [hall r (by simp)]
    exact Nat.zero_le _

theorem scan_dir_max_lines_file (records : List FileRecord) :
    (scan_dir records).max_lines_file = (drain records).1.max_lines_file := by
  simp only [scan_dir]
  rcases h : maxBySize (drain records).2 with _ | ds <;> simp

/-- C3: over the aggregator's fold, `max_lines_file` is replaced only on
strict improvement (so its line count never decreases and a later record
merely tying the maximum never displaces the first record that reached it,
though its lines are still added to `total_lines`); after draining any
record list the recorded maximum equals the true maximum line count over
the list. -/
theorem aggregator_max_invariant (st : Summary × List (String × Nat))
    (r : FileRecord) (records : List FileRecord) :
    maxLinesVal st.1 ≤ maxLinesVal (foldStep st r).1 ∧
    (r.lines ≤ maxLinesVal st.1 →
      (foldStep st r).1.max_lines_file = st.1.max_lines_file ∧
      (foldStep st r).1.total_lines = st.1.total_lines + r.lines) ∧
    (maxLinesVal st.1 < r.lines →
      (foldStep st r).1.max_lines_file = some ⟨r.path, r.size, r.lines⟩) ∧
    maxLinesVal (drain records).1 =
      records.foldl (fun acc r2 => Nat.max acc r2.lines) 0 := by
  refine ⟨?_, ?_, ?_, ?_⟩
  · rw [foldStep_maxLinesVal]
    exact Nat.le_max_left _ _
  · intro h
    exact ⟨foldStep_max_unchanged st r h, (foldStep_totals st r).2.2⟩
  · exact foldStep_max_replaced st r
  · have h := foldl_maxLinesVal records (initSummary, [])
    simpa [drain, initSummary, maxLinesVal] using h

/-- Witness for C3: a second record tying the maximum (5 lines) leaves
`max_lines_file` at the first record but still adds its lines. -/
theorem aggregator_max_invariant_witness :
    (foldStep (⟨1, 10, 5, some ⟨"a", 10, 5⟩, none⟩, [("d", 10)])
        ⟨"b", "d", 20, 5⟩).1.max_lines_file = some ⟨"a", 10, 5⟩ ∧
    (foldStep (⟨1, 10, 5, some ⟨"a", 10, 5⟩, none⟩, [("d", 10)])
        ⟨"b", "d", 20, 5⟩).1.total_lines = 10 ∧
    maxLinesVal (drain [⟨"a", "d", 10, 5⟩, ⟨"b", "d", 20, 5⟩]).1 = 5 := by
  have h := (aggregator_max_invariant (⟨1, 10, 5, some ⟨"a", 10, 5⟩, none⟩, [("d", 10)])
    ⟨"b", "d", 20, 5⟩ [⟨"a", "d", 10, 5⟩, ⟨"b", "d", 20, 5⟩]).2
  refine ⟨(h.1 (by decide)).1, (h.1 (by decide)).2, ?_⟩
  rw [h.2.2]
  decide

/-- C4: after draining any record list (every prefix of the stream being
itself such a list), `total_size` equals the sum of the `DirTotals` values,
`total_files` the number of records consumed, and `total_size` and
`total_lines` the exact sums of the records' `size` and `lines` fields. -/
theorem aggregator_sums (records : List FileRecord) :
    (drain records).1.total_size = sumValues (drain records).2 ∧
    (drain records).1.total_files = records.length ∧
    (drain records).1.total_size = (records.map (fun r => r.size)).sum ∧
    (drain records).1.total_lines = (records.map (fun r => r.lines)).sum := by
  have h := foldl_totals records (initSummary, [])
  simp only [drain, initSummary] at h ⊢
  refine ⟨?_, ?_, ?_, ?_⟩
  · rw [h.2.1, h.2.2.2]
    simp [sumValues]
  · simpa using h.1
  · simpa using h.2.1
  · simpa using h.2.2.1

/-- C9: a record with 0 lines never becomes `max_lines_file` (the strict
comparison against an `unwrap_or(0)` default rejects it), so a run whose
records all have 0 lines ends with `max_lines_file` unset. -/
theorem zero_line_records_no_max (st : Summary × List (String × Nat))
    (r : FileRecord) (records : List FileRecord) :
    (r.lines = 0 → (foldStep st r).1.max_lines_file = st.1.max_lines_file) ∧
    ((∀ r2 ∈ records, r2.lines = 0) →
      (scan_dir records).max_lines_file = none) := by
  constructor
  · intro h
    refine foldStep_max_unchanged st r ?_
    rw [h]
    exact Nat.zero_le _
  · intro hall
    rw [scan_dir_max_lines_file]
    exact foldl_max_none records (initSummary, []) hall rfl

/-- Witness for C9: two empty-looking records (0 lines each, one with
nonzero size) leave `max_lines_file` unset. -/
theorem zero_line_records_no_max_witness :
    (scan_dir [⟨"a", "d", 5, 0⟩, ⟨"b", "d", 7, 0⟩]).max_lines_file = none :=
  (zero_line_records_no_max ((initSummary, []) : Summary × List (String × Nat))
    ⟨"a", "d", 5, 0⟩ [⟨"a", "d", 5, 0⟩, ⟨"b", "d", 7, 0⟩]).2 (by decide)

/-! ## Largest-directory lemmas -/

theorem maxBySizeGo_mem (l : List (String × Nat)) :
    ∀ best, maxBySizeGo best l = best ∨ maxBySizeGo best l ∈ l := by
  induction l with
  | nil =>
    intro best
    left
    rfl
  | cons x rest ih =>
    intro best
    simp only [maxBySizeGo]
    rcases ih (if x.2 ≥ best.2 then x else best) with h | h
    · by_cases hx : x.2 ≥ best.2
      · right
        rw [h, if_pos hx]
        simp
      · left
        rw [h, if_neg hx]
    · right
      simp [h]

theorem maxBySizeGo_ge (l : List (String × Nat)) :
    ∀ best, best.2 ≤ (maxBySizeGo best l).2 ∧
      ∀ p ∈ l, p.2 ≤ (maxBySizeGo best l).2 := by
  induction l with
  | nil =>
    intro best
    exact ⟨Nat.le_refl _, by simp⟩
  | cons x rest ih =>
    intro best
    have hb := ih (if x.2 ≥ best.2 then x else best)
    have hbest : best.2 ≤ (if x.2 ≥ best.2 then x else best).2 := by
      by_cases hx : x.2 ≥ best.2
      · rw [if_pos hx]
        omega
      · rw [if_neg hx]
    have hx2 : x.2 ≤ (if x.2 ≥ best.2 then x else best).2 := by
      by_cases hx : x.2 ≥ best.2
      · rw [if_pos hx]
      · rw [if_neg hx]
        omega
    refine ⟨Nat.le_trans hbest hb.1, ?_⟩
    intro p hp
    simp only [maxBySizeGo]
    rcases List.mem_cons.mp hp with rfl | hp2
    · exact Nat.le_trans hx2 hb.1
    · exact hb.2 p hp2

theorem maxBySize_spec (m : List (String × Nat)) (d : String) (sz : Nat)
    (h : maxBySize m = some (d, sz)) :
    (d, sz) ∈ m ∧ ∀ p ∈ m, p.2 ≤ sz := by
  match m with
  | [] => simp [maxBySize] at h
  | x :: rest =>
    simp only [maxBySize, Option.some.injEq] at h
    have hmem := maxBySizeGo_mem rest x
    have hge := maxBySizeGo_ge rest x
    rw [h] at hmem hge
    constructor
    · rcases hmem with h2 | h2
      · rw [← h2]
        simp
      · simp [h2]
    · intro p hp
      rcases List.mem_cons.mp hp with rfl | hp2
      · exact hge.1
      · exact hge.2 p hp2

theorem foldStep_largest_dir (st : Summary × List (String × Nat)) (r : FileRecord) :
    (foldStep st r).1.largest_dir = st.1.largest_dir := by
  simp [foldStep]

theorem foldl_largest_dir (records : List FileRecord) (st : Summary × List (String × Nat)) :
    (records.foldl foldStep st).1.largest_dir = st.1.largest_dir := by
  induction records generalizing st with
  | nil => rfl
  | cons r rest ih =>
    simp only [List.foldl_cons]
    rw [ih (foldStep st r), foldStep_largest_dir]

theorem bumpDir_ne_nil (m : List (String × Nat)) (d : String) (sz : Nat) :
    bumpDir m d sz ≠ [] := by
  match m with
  | [] => simp [bumpDir]
  | (k, v) :: rest =>
    simp only [bumpDir]
    by_cases hk : k = d
    · simp [hk]
    · simp [hk]

theorem foldl_dir_ne_nil (records : List FileRecord) (st : Summary × List (String × Nat))
    (h : st.2 ≠ []) : (records.foldl foldStep st).2 ≠ [] := by
  induction records generalizing st with
  | nil => exact h
  | cons r rest ih =>
    simp only [List.foldl_cons]
    exact ih (foldStep st r) (bumpDir_ne_nil st.2 r.parent r.size)

/-- C5: `largest_dir` is never set during the fold; it is computed in a
single post-pass over the accumulated `DirTotals` and is an entry of that
map with the greatest cumulative size; with no record consumed it stays
`none` and the renderer's value cell for `none` is `"-"`. -/
theorem largest_dir_post_pass (records : List FileRecord) (d : String) (sz : Nat)
    (fmtSize : Nat → String) (rel : String → String) :
    (drain records).1.largest_dir = none ∧
    (records = [] → (scan_dir records).largest_dir = none) ∧
    (records ≠ [] → (scan_dir records).largest_dir ≠ none) ∧
    ((scan_dir records).largest_dir = some (d, sz) →
      (d, sz) ∈ (drain records).2 ∧ ∀ p ∈ (drain records).2, p.2 ≤ sz) ∧
    largestDirVal fmtSize rel none = "-" := by
  refine ⟨?_, ?_, ?_, ?_, ?_⟩
  · exact foldl_largest_dir records (initSummary, [])
  · intro h
    subst h
    rfl
  · intro h
    match records, h with
    | r :: rest, _ =>
      have hne : (drain (r :: rest)).2 ≠ [] := by
        simp only [drain, List.foldl_cons]
        exact foldl_dir_ne_nil rest (foldStep (initSummary, []) r)
          (bumpDir_ne_nil [] r.parent r.size)
      simp only [scan_dir]
      match hm : maxBySize (drain (r :: rest)).2 with
      | some ds => simp
      | none =>
        match hd : (drain (r :: rest)).2, hne with
        | x :: rest2, _ => rw [hd] at hm; simp [maxBySize] at hm
  · intro h
    simp only [scan_dir] at h
    match hm : maxBySize (drain records).2 with
    | some ds =>
      rw [hm] at h
      simp only at h
      have hds : ds = (d, sz) := by simpa using h
      rw [hds] at hm
      exact maxBySize_spec _ d sz hm
    | none =>
      rw [hm] at h
      simp only at h
      simp only [drain] at h
      rw [foldl_largest_dir records (initSummary, [])] at h
      simp [initSummary] at h
  · rfl

/-- Witness for C5: two records in distinct directories; the post-pass picks
the heavier directory, and the empty stream leaves `largest_dir` unset. -/
theorem largest_dir_post_pass_witness :
    ("e", 1000) ∈ (drain [⟨"a", "d", 30, 3⟩, ⟨"b", "e", 1000, 0⟩]).2 ∧
    (∀ p ∈ (drain [⟨"a", "d", 30, 3⟩, ⟨"b", "e", 1000, 0⟩]).2, p.2 ≤ 1000) ∧
    (scan_dir ([] : List FileRecord)).largest_dir = none := by
  have h := largest_dir_post_pass [⟨"a", "d", 30, 3⟩, ⟨"b", "e", 1000, 0⟩]
    "e" 1000 (fun _ => "") (fun s => s)
  have h4 := h.2.2.2.1 (by decide)
  exact ⟨h4.1, h4.2,
    (largest_dir_post_pass [] "x" 0 (fun _ => "") (fun s => s)).2.1 rfl⟩

/-! ## Argument-parsing lemmas -/

theorem strStartsWith_mlb_dash (a : String)
    (h : strStartsWith a "--max-line-bytes=" = true) : strStartsWith a "-" = true := by
  simp only [strStartsWith] at h ⊢
  have hx : ("--max-line-bytes=").toList =
      '-' :: ['-', 'm', 'a', 'x', '-', 'l', 'i', 'n', 'e', '-', 'b', 'y', 't', 'e', 's', '='] := rfl
  have hy : ("-").toList = ['-'] := rfl
  rw [hx] at h
  rw [hy]
  match ht : a.toList with
  | [] => rw [ht] at h; simp [List.isPrefixOf] at h
  | c :: t =>
    rw [ht] at h
    simp only [List.isPrefixOf, Bool.and_eq_true, beq_iff_eq] at h ⊢
    exact ⟨h.1, trivial⟩

/-- One-step unfolding of the argument loop on a non-empty argument list. -/
theorem fromArgsGo_cons (root : Option String) (plain skip force : Bool) (mlb : Nat)
    (a : String) (rest : List String) :
    fromArgsGo root plain skip force mlb (a :: rest) =
      (if a = "--plain" ∨ a = "--no-colors" then fromArgsGo root true skip force mlb rest
      else if a = "--no-lines" then fromArgsGo root plain true force mlb rest
      else if a = "--force-lines" then fromArgsGo root plain false true mlb rest
      else if a = "--max-line-bytes" then
        match rest with
        | [] => Except.error "--max-line-bytes requires a numeric value"
        | v :: rest2 =>
          match parseU64 v with
          | some n => fromArgsGo root plain skip force n rest2
          | none => Except.error "Unable to parse --max-line-bytes"
      else if strStartsWith a "--max-line-bytes=" then
        match parseU64 (a.drop 17) with
        | some n => fromArgsGo root plain skip force n rest
        | none => Except.error "Unable to parse --max-line-bytes"
      else if strStartsWith a "-" then Except.error ("Unknown flag: " ++ a)
      else fromArgsGo (some a) plain skip force mlb rest) := by
  conv => lhs; rw [fromArgsGo.eq_def]

/-- C6: `--force-lines` sets `force_lines` and unconditionally clears any
previously set `skip_lines`, so `--no-lines --force-lines` yields a config
that counts lines while `--force-lines --no-lines` yields one that does not
(last-specified of the two flags wins). -/
theorem force_lines_clears_skip (root : Option String) (plain skip force : Bool)
    (mlb : Nat) (rest : List String) (ext : Option String) (size : Nat)
    (cfg : Config) :
    fromArgsGo root plain skip force mlb ("--force-lines" :: rest) =
      fromArgsGo root plain false true mlb rest ∧
    from_args ["--no-lines", "--force-lines"] =
      Except.ok ⟨".", false, false, true, DEFAULT_MAX_LINE_BYTES⟩ ∧
    from_args ["--force-lines", "--no-lines"] =
      Except.ok ⟨".", false, true, true, DEFAULT_MAX_LINE_BYTES⟩ ∧
    (cfg.skip_lines = false → cfg.force_lines = true →
      should_count_lines ext size cfg = true) ∧
    (cfg.skip_lines = true → should_count_lines ext size cfg = false) := by
  refine ⟨?_, rfl, rfl, ?_, ?_⟩
  · rw [fromArgsGo_cons]
    rw [if_neg (by decide), if_neg (by decide), if_pos rfl]
  · intro h1 h2
    simp [should_count_lines, h1, h2]
  · intro h1
    simp [should_count_lines, h1]

/-- Witness for C6: under `--no-lines --force-lines` a plain small file is
counted; under `--force-lines --no-lines` it is not. -/
theorem force_lines_clears_skip_witness :
    should_count_lines none 5 ⟨".", false, false, true, DEFAULT_MAX_LINE_BYTES⟩ = true ∧
    should_count_lines none 5 ⟨".", false, true, true, DEFAULT_MAX_LINE_BYTES⟩ = false :=
  ⟨(force_lines_clears_skip none false false false 0 [] none 5
      ⟨".", false, false, true, DEFAULT_MAX_LINE_BYTES⟩).2.2.2.1 rfl rfl,
   (force_lines_clears_skip none false false false 0 [] none 5
      ⟨".", false, true, true, DEFAULT_MAX_LINE_BYTES⟩).2.2.2.2 rfl⟩

/-- C8: an argument reached in flag position that starts with `-` and is none
of the recognized flags makes parsing fail with `Unknown flag:` plus the
flag name; `main` then prints the error and the usage text to standard
error and exits 1 before any traversal; a parsed config whose root does not
exist likewise exits 1 with a `Path does not exist` message. -/
theorem unknown_flag_and_missing_root (root : Option String) (plain skip force : Bool)
    (mlb : Nat) (a : String) (rest args : List String) (ex : String → Bool)
    (e : String) (cfg : Config) :
    (strStartsWith a "-" = true → a ≠ "--plain" → a ≠ "--no-colors" →
      a ≠ "--no-lines" → a ≠ "--force-lines" → a ≠ "--max-line-bytes" →
      strStartsWith a "--max-line-bytes=" = false →
      fromArgsGo root plain skip force mlb (a :: rest) =
        Except.error ("Unknown flag: " ++ a)) ∧
    (from_args args = Except.error e →
      mainStart args ex = MainStart.exit1 [e, usage]) ∧
    (from_args args = Except.ok cfg → ex cfg.root = false →
      mainStart args ex = MainStart.exit1 ["Path does not exist: " ++ cfg.root]) := by
  refine ⟨?_, ?_, ?_⟩
  · intro h1 h2 h3 h4 h5 h6 h7
    rw [fromArgsGo_cons]
    rw [if_neg (by simp [h2, h3]), if_neg h4, if_neg h5, if_neg h6,
      if_neg (by simp [h7]), if_pos h1]
  · intro h
    simp [mainStart, h]
  · intro h1 h2
    simp [mainStart, h1, h2]

/-- Witness for C8: `--bogus` exits 1 echoing the flag and printing usage; a
missing root `nope` exits 1 with the path message. -/
theorem unknown_flag_and_missing_root_witness :
    fromArgsGo none false false false DEFAULT_MAX_LINE_BYTES ["--bogus"] =
      Except.error ("Unknown flag: " ++ "--bogus") ∧
    mainStart ["--bogus"] (fun _ => true) =
      MainStart.exit1 ["Unknown flag: --bogus", usage] ∧
    mainStart ["nope"] (fun _ => false) =
      MainStart.exit1 ["Path does not exist: " ++ "nope"] := by
  have h := unknown_flag_and_missing_root none false false false
    DEFAULT_MAX_LINE_BYTES "--bogus" [] ["--bogus"] (fun _ => true)
    "Unknown flag: --bogus" ⟨"nope", false, false, false, DEFAULT_MAX_LINE_BYTES⟩
  have h2 := unknown_flag_and_missing_root none false false false
    DEFAULT_MAX_LINE_BYTES "--bogus" [] ["nope"] (fun _ => false)
    "Unknown flag: --bogus" ⟨"nope", false, false, false, DEFAULT_MAX_LINE_BYTES⟩
  refine ⟨?_, ?_, ?_⟩
  · exact h.1 (by decide) (by decide) (by decide) (by decide) (by decide)
      (by decide) (by decide)
  · exact h.2.1 rfl
  · exact h2.2.2 rfl rfl

theorem fromArgsGo_positional (args : List String) (root : Option String) (r : String)
    (hall : ∀ a ∈ args, strStartsWith a "-" = false)
    (hlast : args.getLast? = some r) :
    fromArgsGo root false false false DEFAULT_MAX_LINE_BYTES args =
      Except.ok ⟨r, false, false, false, DEFAULT_MAX_LINE_BYTES⟩ := by
  induction args generalizing root with
  | nil => simp at hlast
  | cons a rest ih =>
    have ha := hall a (by simp)
    have step : fromArgsGo root false false false DEFAULT_MAX_LINE_BYTES (a :: rest) =
        fromArgsGo (some a) false false false DEFAULT_MAX_LINE_BYTES rest := by
      rw [fromArgsGo_cons]
      rw [if_neg (by rintro (rfl | rfl) <;> exact absurd ha (by decide)),
        if_neg (by rintro rfl; exact absurd ha (by decide)),
        if_neg (by rintro rfl; exact absurd ha (by decide)),
        if_neg (by rintro rfl; exact absurd ha (by decide)),
        if_neg (fun hc => absurd (strStartsWith_mlb_dash a hc) (by simp [ha])),
        if_neg (by simp [ha])]
    rw [step]
    match rest with
    | [] =>
      have har : a = r := by simpa using hlast
      subst har
      rfl
    | b :: rest2 =>
      exact ih (some a) (fun x hx => hall x (List.mem_cons_of_mem a hx))
        (by simpa using hlast)

/-- C10: several positional (non-flag) arguments parse successfully, the last
one becoming the root path and all earlier ones being discarded. -/
theorem positional_last_wins (args : List String) (r : String)
    (hall : ∀ a ∈ args, strStartsWith a "-" = false)
    (hlast : args.getLast? = some r) :
    from_args args = Except.ok ⟨r, false, false, false, DEFAULT_MAX_LINE_BYTES⟩ :=
  fromArgsGo_positional args none r hall hlast

/-- Witness for C10: `tengok a b c` uses `c` as the root. -/
theorem positional_last_wins_witness :
    from_args ["a", "b", "c"] =
      Except.ok ⟨"c", false, false, false, DEFAULT_MAX_LINE_BYTES⟩ :=
  positional_last_wins ["a", "b", "c"] "c" (by decide) (by decide)

/-- C7: a failed metadata lookup makes the worker skip the file entirely (no
record is emitted); a file classified for line counting whose read fails
still yields a record with 0 lines and the metadata size. -/
theorem worker_error_recovery (ext : Option String) (path parent : String)
    (file : Option (List Nat)) (size : Nat) (cfg : Config) :
    workerProcess ext path parent none file cfg = none ∧
    (should_count_lines ext size cfg = true →
      workerProcess ext path parent (some size) none cfg =
        some ⟨path, parent, size, 0⟩) := by
  constructor
  · rfl
  · intro h
    simp [workerProcess, h, count_lines_fast]

/-- Witness for C7: a small `rs` file whose read fails is recorded with its
metadata size and 0 lines. -/
theorem worker_error_recovery_witness :
    workerProcess (some "rs") "p" "d" (some 5) none
      ⟨".", false, false, false, 100⟩ = some ⟨"p", "d", 5, 0⟩ :=
  (worker_error_recovery (some "rs") "p" "d" none 5
    ⟨".", false, false, false, 100⟩).2 (by decide)

end Tengok
